import Mathlib

/-!
Verification development for the ArbiPic attestation registry and its
client-side commitment protocol.

The client-side commitment code is embedded from
`frontend/src/utils/zkProof.ts` (functions `computeCommitment`,
`generateZKProof`, `verifyZKProofLocally`, `storeSecretSecurely`,
`retrieveSecret`, `deleteSecret`).  JavaScript strings are modelled as
Lean `String`, JavaScript bigints as `Nat`, byte arrays as `List Nat`,
and the external `keccak256` primitive (from the `viem` library) as an
explicit function parameter `keccak : List Nat → List Nat` mapping the
input bytes to the 32 digest bytes.  Functions that can throw in
JavaScript (hex parsing, `toHex` size overflow) return `Option`.

The on-ledger registry (the Stylus `Verifier` contract, whose Rust
source `contracts/src/lib.rs` is not part of the repository snapshot;
only its ABI in `frontend/src/config.ts` and its callers are) is
modelled from the specification, definition by definition, below.
-/

namespace ArbiPic

/-- Hex value of a character, as parsed by viem's `charCodeToBase16`:
digits `0`-`9`, lower-case `a`-`f` and upper-case `A`-`F` are accepted,
everything else throws (here: `none`). -/
def hexVal? (c : Char) : Option Nat :=
  if '0' ≤ c ∧ c ≤ '9' then some (c.toNat - 48)
  else if 'a' ≤ c ∧ c ≤ 'f' then some (c.toNat - 87)
  else if 'A' ≤ c ∧ c ≤ 'F' then some (c.toNat - 55)
  else none

/-- Model of JavaScript `n.toString(16)` on a non-negative bigint:
lower-case hex digits, most significant first, `"0"` for zero. -/
def natHexDigits (n : Nat) : List Char :=
  if _h : n < 16 then [Nat.digitChar n]
  else natHexDigits (n / 16) ++ [Nat.digitChar (n % 16)]
termination_by n
decreasing_by exact Nat.div_lt_self (by omega) (by omega)

/-- Model of JavaScript `String.prototype.padStart(len, c)` on the list
of characters: pad on the left up to `len`, unchanged if already as
long. -/
def padStartList (len : Nat) (c : Char) (cs : List Char) : List Char :=
  List.replicate (len - cs.length) c ++ cs

/-- Parse a run of hex digits two at a time into bytes, most
significant digit of each byte first (viem's `hexToBytes` core loop);
`none` on an odd-length run or a non-hex character. -/
def hexPairsToBytes? : List Char → Option (List Nat)
  | [] => some []
  | c1 :: c2 :: rest =>
    match hexVal? c1, hexVal? c2, hexPairsToBytes? rest with
    | some v1, some v2, some bs => some ((16 * v1 + v2) :: bs)
    | _, _, _ => none
  | [_] => none

/-- Model of viem's `hexToBytes`: strip the `0x` tag and parse the hex
digit pairs; inputs without the tag throw. -/
def hexToBytes? (s : String) : Option (List Nat) :=
  match s.data with
  | '0' :: 'x' :: rest => hexPairsToBytes? rest
  | _ => none

/-- Lower-case hex rendering of a byte list, two digits per byte (viem's
`bytesToHex`, without the `0x` tag). -/
def bytesToHexChars (bs : List Nat) : List Char :=
  bs.flatMap (fun b => [Nat.digitChar (b / 16 % 16), Nat.digitChar (b % 16)])

/-- Big-endian `k`-byte encoding of a natural number below `256 ^ k`. -/
def natBeBytes : Nat → Nat → List Nat
  | 0, _ => []
  | k + 1, n => natBeBytes k (n / 256) ++ [n % 256]

/-- Numeric value of a big-endian byte list. -/
def beBytesToNat (bs : List Nat) : Nat :=
  bs.foldl (fun acc b => acc * 256 + b) 0

/-- Model of JavaScript `String.prototype.toLowerCase` on the ASCII
strings handled here. -/
def jsToLower (s : String) : String :=
  ⟨s.data.map Char.toLower⟩

/-- Strip a leading `0x` tag from a character list, the effect of viem
`concat`'s per-element `replace` on every hex string occurring here (in
a hex-digit string the substring `0x` can only be the leading tag). -/
def dropHexTag : List Char → List Char
  | '0' :: 'x' :: rest => rest
  | cs => cs

/-- Model of viem's `concat` on two hex strings: re-tag the joined
digit runs. -/
def viemConcat (a b : String) : String :=
  ⟨'0' :: 'x' :: (dropHexTag a.data ++ dropHexTag b.data)⟩

/-- Model of viem's `toHex(value, { size: 32 })` on a non-negative
bigint: `0x` plus the hex digits left-padded to 64; values of 256 bits
or more throw (`IntegerOutOfRangeError`). -/
def toHexViem32 (n : Nat) : Option String :=
  if n < 2 ^ 256 then some ⟨'0' :: 'x' :: padStartList 64 '0' (natHexDigits n)⟩
  else none

/-- Model of viem's `keccak256` on a hex-string input: parse the bytes,
hash with the abstract `keccak` primitive and render the digest as a
lower-case `0x` hex string. -/
def keccak256HexStr (keccak : List Nat → List Nat) (s : String) : Option String :=
  (hexToBytes? s).map (fun bs => ⟨'0' :: 'x' :: bytesToHexChars (keccak bs)⟩)

/-- Embedding of `computeCommitment` from `frontend/src/utils/zkProof.ts`:
`keccak256(concat([photoHash, toHex(secret, { size: 32 })]))`. -/
def computeCommitment (keccak : List Nat → List Nat) (photoHash : String)
    (secret : Nat) : Option String :=
  match toHexViem32 secret with
  | none => none
  | some secretHex => keccak256HexStr keccak (viemConcat photoHash secretHex)

/-- Embedding of `generateZKProof` from `frontend/src/utils/zkProof.ts`,
with the randomly drawn `secretBigInt` made an explicit argument:
returns the commitment together with the secret rendered as
`'0x' + secretBigInt.toString(16).padStart(64, '0')`. -/
def generateZKProof (keccak : List Nat → List Nat) (photoHash : String)
    (secretBigInt : Nat) : Option (String × String) :=
  let secretHex : String := ⟨'0' :: 'x' :: padStartList 64 '0' (natHexDigits secretBigInt)⟩
  (computeCommitment keccak photoHash secretBigInt).map (fun commitment => (commitment, secretHex))

/-- Embedding of `verifyZKProofLocally` from
`frontend/src/utils/zkProof.ts`: recompute the commitment and compare
the two strings lower-cased. -/
def verifyZKProofLocally (keccak : List Nat → List Nat) (photoHash : String)
    (commitment : String) (secret : Nat) : Option Bool :=
  (computeCommitment keccak photoHash secret).map
    (fun computed => jsToLower computed == jsToLower commitment)

/-- A well-formed 256-bit photo hash string: `0x` followed by exactly 64
hex digits. -/
def isHex64 (s : String) : Bool :=
  match s.data with
  | c0 :: c1 :: rest =>
    c0 == '0' && c1 == 'x' && rest.length == 64 &&
      rest.all (fun c => (hexVal? c).isSome)
  | _ => false

/-- A concrete stand-in digest function used to instantiate the
abstract `keccak` parameter on closed inputs. -/
def testKeccak (bs : List Nat) : List Nat :=
  List.replicate 32 ((171 + bs.length) % 256)

/-- A constant stand-in digest function for closed instances. -/
def constKeccak (_bs : List Nat) : List Nat :=
  List.replicate 32 171

/-- The all-zero 256-bit hash string. -/
def zeroHash64 : String :=
  "0x0000000000000000000000000000000000000000000000000000000000000000"

/-- The commitment produced by `constKeccak`, lower-case. -/
def abCommit : String :=
  "0xabababababababababababababababababababababababababababababababab"

/-- The same commitment with upper-case hex digits. -/
def abCommitUpper : String :=
  "0xABABABABABABABABABABABABABABABABABABABABABABABABABABABABABABABAB"

/-! Browser `localStorage`, modelled as an association list from key
strings to value strings (later entries shadowed by earlier ones, as
`lsSet` removes the old binding). -/

/-- The browser storage state. -/
def BrowserStorage : Type := List (String × String)

/-- Model of `localStorage.getItem`. -/
def lsGet (st : BrowserStorage) (k : String) : Option String :=
  (List.find? (fun p => p.1 == k) st).map (fun p => p.2)

/-- Model of `localStorage.setItem`. -/
def lsSet (st : BrowserStorage) (k v : String) : BrowserStorage :=
  (k, v) :: List.filter (fun p => !(p.1 == k)) st

/-- Model of `localStorage.removeItem`. -/
def lsRemove (st : BrowserStorage) (k : String) : BrowserStorage :=
  List.filter (fun p => !(p.1 == k)) st

/-- Embedding of `storeSecretSecurely` from
`frontend/src/utils/zkProof.ts`: `localStorage.setItem('zk_secret_' +
photoHash, secret)`. -/
def storeSecretSecurely (st : BrowserStorage) (photoHash secret : String) : BrowserStorage :=
  lsSet st ("zk_secret_" ++ photoHash) secret

/-- Embedding of `retrieveSecret` from `frontend/src/utils/zkProof.ts`. -/
def retrieveSecret (st : BrowserStorage) (photoHash : String) : Option String :=
  lsGet st ("zk_secret_" ++ photoHash)

/-- Embedding of `deleteSecret` from `frontend/src/utils/zkProof.ts`. -/
def deleteSecret (st : BrowserStorage) (photoHash : String) : BrowserStorage :=
  lsRemove st ("zk_secret_" ++ photoHash)

/-! The attestation registry.  The Stylus contract source
`contracts/src/lib.rs` is not part of the repository snapshot (only its
ABI declaration `VERIFIER_ABI` in `frontend/src/config.ts` and its
callers are), so the registry is modelled from the specification.
Identities (owner addresses) and 256-bit words are both modelled as
`Nat`; the zero identity is `0`. -/

/-- Modelled from the spec: one `AttestationRecord` per photo hash, as
described in the data model of the missing contract
`contracts/src/lib.rs` — `verifiedAt` (ledger clock at write time),
`owner` (caller identity) and `commitment` (opaque 256-bit value). -/
structure AttestationRecord where
  verifiedAt : Nat
  owner : Nat
  commitment : Nat
deriving DecidableEq

/-- Modelled from the spec: the registry's durable storage, missing
with `contracts/src/lib.rs` — the record map, the per-owner counter map
and the global counter. -/
structure RegistryState where
  records : List (Nat × AttestationRecord)
  ownerCounts : List (Nat × Nat)
  totalPhotoCount : Nat
deriving DecidableEq

/-- The registry state before any registration. -/
def emptyRegistry : RegistryState :=
  { records := [], ownerCounts := [], totalPhotoCount := 0 }

/-- Look up the attestation record stored for a photo hash. -/
def lookupRecord (st : RegistryState) (h : Nat) : Option AttestationRecord :=
  (List.find? (fun p => p.1 == h) st.records).map (fun p => p.2)

/-- Count stored for an owner in a counter map, zero if absent. -/
def lookupCount (m : List (Nat × Nat)) (o : Nat) : Nat :=
  ((List.find? (fun p => p.1 == o) m).map (fun p => p.2)).getD 0

/-- Increment an owner's entry in a counter map, inserting it at one if
absent. -/
def bumpOwner (m : List (Nat × Nat)) (o : Nat) : List (Nat × Nat) :=
  match m with
  | [] => [(o, 1)]
  | p :: rest => if p.1 == o then (p.1, p.2 + 1) :: rest else p :: bumpOwner rest o

/-- Modelled from the spec: the error taxonomy of the missing contract
`contracts/src/lib.rs` — `AlreadyRegistered` is the only
registry-detected error. -/
inductive RegistryError where
  | AlreadyRegistered
deriving DecidableEq

/-- Modelled from the spec: `register(photoHash, commitment)` (ABI name
`verifyPhoto`) of the missing contract `contracts/src/lib.rs`, with the
caller identity and the ledger time passed explicitly.  Fails with
`AlreadyRegistered` when a record exists; otherwise creates the record,
bumps both counters and returns the assigned `verifiedAt`. -/
def register (st : RegistryState) (caller time h c : Nat) :
    Except RegistryError (Nat × RegistryState) :=
  match lookupRecord st h with
  | some _ => .error .AlreadyRegistered
  | none =>
    .ok (time,
      { records := (h, { verifiedAt := time, owner := caller, commitment := c }) :: st.records,
        ownerCounts := bumpOwner st.ownerCounts caller,
        totalPhotoCount := st.totalPhotoCount + 1 })

/-- Modelled from the spec: `getAttestation(photoHash)` of the missing
contract `contracts/src/lib.rs` — the `(verifiedAt, owner, commitment)`
tuple, zero-valued when absent, never failing. -/
def getAttestation (st : RegistryState) (h : Nat) : Nat × Nat × Nat :=
  match lookupRecord st h with
  | some r => (r.verifiedAt, r.owner, r.commitment)
  | none => (0, 0, 0)

/-- Modelled from the spec: `isVerified(photoHash)` of the missing
contract `contracts/src/lib.rs`, equivalent to `verifiedAt(photoHash)
!= 0`. -/
def isVerified (st : RegistryState) (h : Nat) : Bool :=
  (getAttestation st h).1 != 0

/-- Modelled from the spec: `getOwnerOf(photoHash)` of the missing
contract `contracts/src/lib.rs`, the zero identity when absent. -/
def getOwnerOf (st : RegistryState) (h : Nat) : Nat :=
  (getAttestation st h).2.1

/-- Modelled from the spec: `getPhotoCount()` of the missing contract
`contracts/src/lib.rs`. -/
def getPhotoCount (st : RegistryState) : Nat :=
  st.totalPhotoCount

/-- Modelled from the spec: `getOwnerPhotoCount(owner)` of the missing
contract `contracts/src/lib.rs`. -/
def getOwnerPhotoCount (st : RegistryState) (o : Nat) : Nat :=
  lookupCount st.ownerCounts o

/-- The commitment digest recomputed by the registry: the hash of the
64-byte concatenation of the photo hash and the secret (32 big-endian
bytes each), read back as a 256-bit number. -/
def commitmentHash (keccak : List Nat → List Nat) (h s : Nat) : Nat :=
  beBytesToNat (keccak (natBeBytes 32 h ++ natBeBytes 32 s))

/-- Modelled from the spec: `verifyProof(photoHash, secret)` (ABI name
`verifyZkProof`) of the missing contract `contracts/src/lib.rs` —
recomputes `H(photoHash ‖ secret)` over the 64-byte concatenation and
compares against the stored commitment; `false`, never a failure, when
the record is absent or the secret mismatches. -/
def verifyProof (keccak : List Nat → List Nat) (st : RegistryState) (h s : Nat) : Bool :=
  match lookupRecord st h with
  | none => false
  | some r => commitmentHash keccak h s == r.commitment

/-- The registry's entrypoints, as calls: the write entrypoint carries
the caller identity and the ledger time supplied by the host. -/
inductive RegistryOp where
  | register (caller time h c : Nat)
  | getAttestation (h : Nat)
  | isVerified (h : Nat)
  | getOwnerOf (h : Nat)
  | verifyProof (h s : Nat)
  | getOwnerPhotoCount (o : Nat)
  | getPhotoCount
deriving DecidableEq

/-- Outputs of the registry's entrypoints. -/
inductive RegistryOutput where
  | timestamp (t : Nat)
  | failed (e : RegistryError)
  | attTuple (t o c : Nat)
  | boolOut (b : Bool)
  | addrOut (a : Nat)
  | countOut (n : Nat)
deriving DecidableEq

/-- Modelled from the spec: one registry call, returning the follow-up
state and the output.  Only `register` mutates; a failed `register`
leaves the state untouched (atomic all-or-nothing). -/
def exec (keccak : List Nat → List Nat) (st : RegistryState) :
    RegistryOp → RegistryState × RegistryOutput
  | .register caller time h c =>
    match register st caller time h c with
    | .ok (t, st') => (st', .timestamp t)
    | .error e => (st, .failed e)
  | .getAttestation h =>
    (st, .attTuple (getAttestation st h).1 (getAttestation st h).2.1 (getAttestation st h).2.2)
  | .isVerified h => (st, .boolOut (isVerified st h))
  | .getOwnerOf h => (st, .addrOut (getOwnerOf st h))
  | .verifyProof h s => (st, .boolOut (verifyProof keccak st h s))
  | .getOwnerPhotoCount o => (st, .countOut (getOwnerPhotoCount st o))
  | .getPhotoCount => (st, .countOut (getPhotoCount st))

/-- State component of a registry call. -/
def execState (keccak : List Nat → List Nat) (st : RegistryState) (op : RegistryOp) :
    RegistryState :=
  (exec keccak st op).1

/-- Host-side guarantee on a call: the ledger clock passed to a write
is always positive (reads carry no host inputs). -/
def opTimeOk : RegistryOp → Prop
  | .register _ time _ _ => 0 < time
  | _ => True

/-- States the registry can reach from a given state through any
sequence of entrypoint calls, under the host guarantee on ledger
times. -/
inductive ReachableFrom (keccak : List Nat → List Nat) : RegistryState → RegistryState → Prop where
  | refl (st : RegistryState) : ReachableFrom keccak st st
  | step {st st' : RegistryState} (op : RegistryOp) :
      ReachableFrom keccak st st' → opTimeOk op →
      ReachableFrom keccak st (execState keccak st' op)

/-- States reachable from the freshly deployed registry. -/
def Reachable (keccak : List Nat → List Nat) (st : RegistryState) : Prop :=
  ReachableFrom keccak emptyRegistry st

/-- The registry's internal consistency invariant: record keys are
distinct, written timestamps are positive, and both counters agree with
the record map. -/
def RegistryInv (st : RegistryState) : Prop :=
  (st.records.map Prod.fst).Nodup ∧
  (∀ p ∈ st.records, 0 < p.2.verifiedAt) ∧
  st.totalPhotoCount = st.records.length ∧
  ∀ o, lookupCount st.ownerCounts o = st.records.countP (fun p => p.2.owner == o)

theorem lookupCount_bumpOwner_self (m : List (Nat × Nat)) (o : Nat) :
    lookupCount (bumpOwner m o) o = lookupCount m o + 1 := by
  induction m with
  | nil => simp [bumpOwner, lookupCount]
  | cons p rest ih =>
    by_cases hp : p.1 = o
    · simp [bumpOwner, lookupCount, hp]
    · simp only [bumpOwner, lookupCount, beq_iff_eq, hp, if_false]
      rw [List.find?_cons_of_neg, List.find?_cons_of_neg]
      · exact ih
      · simpa using hp
      · simpa using hp

theorem lookupCount_bumpOwner_ne (m : List (Nat × Nat)) {o o' : Nat} (hne : o' ≠ o) :
    lookupCount (bumpOwner m o) o' = lookupCount m o' := by
  induction m with
  | nil => simp [bumpOwner, lookupCount, List.find?_cons, Ne.symm hne]
  | cons p rest ih =>
    by_cases hp : p.1 = o
    · subst hp
      simp only [bumpOwner, beq_self_eq_true, if_true, lookupCount]
      rw [List.find?_cons_of_neg, List.find?_cons_of_neg]
      · simpa using Ne.symm hne
      · simpa using Ne.symm hne
    · simp only [bumpOwner, beq_iff_eq, hp, if_false, lookupCount]
      by_cases hq : p.1 = o'
      · rw [List.find?_cons_of_pos, List.find?_cons_of_pos] <;> simp [hq]
      · rw [List.find?_cons_of_neg, List.find?_cons_of_neg]
        · exact ih
        · simpa using hq
        · simpa using hq

theorem natBeBytes_length (k n : Nat) : (natBeBytes k n).length = k := by
  induction k generalizing n with
  | zero => simp [natBeBytes]
  | succ k ih => simp [natBeBytes, ih]

theorem lookupRecord_register_cons {st : RegistryState} {h : Nat}
    (habs : lookupRecord st h = none) (caller time c : Nat) {h' : Nat} :
    lookupRecord
      { records := (h, { verifiedAt := time, owner := caller, commitment := c }) :: st.records,
        ownerCounts := bumpOwner st.ownerCounts caller,
        totalPhotoCount := st.totalPhotoCount + 1 } h' =
      if h' = h then some { verifiedAt := time, owner := caller, commitment := c }
      else lookupRecord st h' := by
  by_cases hcase : h' = h
  · subst hcase
    simp [lookupRecord, List.find?_cons]
  · simp only [hcase, if_false, lookupRecord]
    rw [List.find?_cons_of_neg]
    simpa using fun hcontra => hcase hcontra.symm

theorem execState_preserves_lookup {keccak : List Nat → List Nat} {st : RegistryState}
    (op : RegistryOp) {h : Nat} {r : AttestationRecord}
    (hl : lookupRecord st h = some r) :
    lookupRecord (execState keccak st op) h = some r := by
  cases op with
  | register caller time h' c =>
    simp only [execState, exec]
    cases hfind : register st caller time h' c with
    | error e => simpa using hl
    | ok res =>
      simp only []
      unfold register at hfind
      cases habs : lookupRecord st h' with
      | some _ => rw [habs] at hfind; cases hfind
      | none =>
        rw [habs] at hfind
        cases hfind
        rw [lookupRecord_register_cons habs]
        have hne : h ≠ h' := by
          intro hcontra
          subst hcontra
          rw [habs] at hl
          cases hl
        simp [hne, hl]
  | getAttestation h' => simpa [execState, exec] using hl
  | isVerified h' => simpa [execState, exec] using hl
  | getOwnerOf h' => simpa [execState, exec] using hl
  | verifyProof h' s => simpa [execState, exec] using hl
  | getOwnerPhotoCount o => simpa [execState, exec] using hl
  | getPhotoCount => simpa [execState, exec] using hl

theorem reachableFrom_preserves_lookup {keccak : List Nat → List Nat}
    {st st' : RegistryState} (hr : ReachableFrom keccak st st') {h : Nat}
    {r : AttestationRecord} (hl : lookupRecord st h = some r) :
    lookupRecord st' h = some r := by
  induction hr with
  | refl => exact hl
  | step op _ _ ih => exact execState_preserves_lookup op ih

theorem registryInv_empty : RegistryInv emptyRegistry := by
  constructor
  · simp [emptyRegistry]
  refine ⟨by simp [emptyRegistry], by simp [emptyRegistry], ?_⟩
  intro o
  simp [emptyRegistry, lookupCount]

theorem registryInv_step {keccak : List Nat → List Nat} {st : RegistryState}
    (hinv : RegistryInv st) (op : RegistryOp) (hok : opTimeOk op) :
    RegistryInv (execState keccak st op) := by
  cases op with
  | register caller time h c =>
    simp only [execState, exec]
    cases hfind : register st caller time h c with
    | error e => exact hinv
    | ok res =>
      simp only []
      unfold register at hfind
      cases habs : lookupRecord st h with
      | some _ => rw [habs] at hfind; cases hfind
      | none =>
        rw [habs] at hfind
        cases hfind
        obtain ⟨hnodup, hpos, htot, hcnt⟩ := hinv
        refine ⟨?_, ?_, ?_, ?_⟩
        · simp only [List.map_cons, List.nodup_cons]
          refine ⟨?_, hnodup⟩
          intro hmem
          have hnone : List.find? (fun p => p.1 == h) st.records = none := by
            cases hcase : List.find? (fun p => p.1 == h) st.records with
            | none => rfl
            | some p => simp [lookupRecord, hcase] at habs
          rw [List.find?_eq_none] at hnone
          obtain ⟨p, hp, hp1⟩ := List.mem_map.mp hmem
          exact hnone p hp (by simp [hp1])
        · intro p hp
          rcases List.mem_cons.mp hp with heq | hmem
          · subst heq
            exact hok
          · exact hpos p hmem
        · simp [htot]
        · intro o
          rw [List.countP_cons]
          by_cases hco : caller = o
          · subst hco
            rw [lookupCount_bumpOwner_self, hcnt]
            simp
          · rw [lookupCount_bumpOwner_ne _ (Ne.symm hco), hcnt]
            simp [hco]
  | getAttestation h => exact hinv
  | isVerified h => exact hinv
  | getOwnerOf h => exact hinv
  | verifyProof h s => exact hinv
  | getOwnerPhotoCount o => exact hinv
  | getPhotoCount => exact hinv

theorem reachable_inv {keccak : List Nat → List Nat} {st : RegistryState}
    (hr : Reachable keccak st) : RegistryInv st := by
  unfold Reachable at hr
  induction hr with
  | refl => exact registryInv_empty
  | step op _ hok ih => exact registryInv_step ih op hok

theorem string_append_left_cancel {a b c : String} (h : a ++ b = a ++ c) : b = c := by
  have hd : a.data ++ b.data = a.data ++ c.data := congrArg String.data h
  have hbc : b.data = c.data := List.append_cancel_left hd
  cases b
  cases c
  exact congrArg String.mk (by simpa using hbc)

theorem lsGet_cons_eq {p : String × String} {rest : List (String × String)} {k : String}
    (heq : p.1 = k) : lsGet (p :: rest) k = some p.2 := by
  simp [lsGet, List.find?_cons, heq]

theorem lsGet_cons_ne {p : String × String} {rest : List (String × String)} {k : String}
    (hne : p.1 ≠ k) : lsGet (p :: rest) k = lsGet rest k := by
  simp [lsGet, List.find?_cons, hne]

theorem lsGet_lsSet_self (st : BrowserStorage) (k v : String) :
    lsGet (lsSet st k v) k = some v := by
  simp [lsGet, lsSet, List.find?_cons]

theorem lsGet_filter_ne (st : BrowserStorage) {k k' : String} (hne : k' ≠ k) :
    lsGet (List.filter (fun p => !(p.1 == k)) st) k' = lsGet st k' := by
  induction st with
  | nil => rfl
  | cons p rest ih =>
    by_cases hp : p.1 = k
    · have hfil : List.filter (fun q => !(q.1 == k)) (p :: rest) =
          List.filter (fun q => !(q.1 == k)) rest := by
        simp [List.filter_cons, hp]
      rw [hfil, ih]
      exact (lsGet_cons_ne (by rw [hp]; exact Ne.symm hne)).symm
    · have hfil : List.filter (fun q => !(q.1 == k)) (p :: rest) =
          p :: List.filter (fun q => !(q.1 == k)) rest := by
        simp [List.filter_cons, hp]
      rw [hfil]
      by_cases hq : p.1 = k'
      · rw [lsGet_cons_eq hq, lsGet_cons_eq hq]
      · rw [lsGet_cons_ne hq, lsGet_cons_ne hq, ih]

theorem lsGet_lsSet_ne (st : BrowserStorage) {k k' : String} (v : String) (hne : k' ≠ k) :
    lsGet (lsSet st k v) k' = lsGet st k' := by
  rw [lsSet]
  rw [lsGet_cons_ne (show ((k, v) : String × String).1 ≠ k' from Ne.symm hne)]
  exact lsGet_filter_ne st hne

theorem lsGet_lsRemove_self (st : BrowserStorage) (k : String) :
    lsGet (lsRemove st k) k = none := by
  rw [lsRemove, lsGet]
  have : List.find? (fun p => p.1 == k) (List.filter (fun p => !(p.1 == k)) st) = none := by
    rw [List.find?_eq_none]
    intro p hp
    have := (List.mem_filter.mp hp).2
    simpa using this
  rw [this]
  rfl

theorem natHexDigits_lt {n : Nat} (h : n < 16) : natHexDigits n = [Nat.digitChar n] := by
  unfold natHexDigits
  rw [dif_pos h]

theorem natHexDigits_ge {n : Nat} (h : 16 ≤ n) :
    natHexDigits n = natHexDigits (n / 16) ++ [Nat.digitChar (n % 16)] := by
  conv_lhs => rw [natHexDigits]
  rw [dif_neg (by omega)]

theorem hexVal_digitChar {d : Nat} (hd : d < 16) : hexVal? (Nat.digitChar d) = some d := by
  interval_cases d <;> decide

theorem padStart_natHexDigits_step (m : Nat) (hm : 1 ≤ m) (n : Nat) :
    padStartList (2 * m + 2) '0' (natHexDigits n) =
      padStartList (2 * m) '0' (natHexDigits (n / 256)) ++
        [Nat.digitChar (n / 16 % 16), Nat.digitChar (n % 16)] := by
  by_cases h1 : n < 16
  · have hn256 : n / 256 = 0 := by omega
    have hn16 : n / 16 = 0 := by omega
    have hmod : n % 16 = n := by omega
    rw [natHexDigits_lt h1, hn256, hn16, natHexDigits_lt (by omega : (0 : Nat) < 16), hmod]
    simp only [padStartList, List.length_cons, List.length_nil]
    rw [show 2 * m + 2 - (0 + 1) = (2 * m - 1) + 2 by omega,
      show 2 * m - (0 + 1) = 2 * m - 1 by omega, List.replicate_add]
    simp [List.replicate_succ, Nat.digitChar]
  · by_cases h2 : n < 256
    · have hn256 : n / 256 = 0 := by omega
      have hdiv : n / 16 < 16 := by omega
      have hmod : n / 16 % 16 = n / 16 := by omega
      rw [natHexDigits_ge (by omega), natHexDigits_lt hdiv, hn256,
        natHexDigits_lt (by omega : (0 : Nat) < 16), hmod]
      simp only [padStartList, List.length_append, List.length_cons, List.length_nil]
      rw [show 2 * m + 2 - (0 + 1 + (0 + 1)) = (2 * m - 1) + 1 by omega,
        show 2 * m - (0 + 1) = 2 * m - 1 by omega, List.replicate_add]
      simp [List.replicate_succ, Nat.digitChar]
    · have hsplit : natHexDigits n =
          natHexDigits (n / 256) ++ [Nat.digitChar (n / 16 % 16), Nat.digitChar (n % 16)] := by
        rw [natHexDigits_ge (by omega : 16 ≤ n), natHexDigits_ge (by omega : 16 ≤ n / 16)]
        rw [Nat.div_div_eq_div_mul]
        simp
      rw [hsplit]
      simp only [padStartList, List.length_append, List.length_cons, List.length_nil]
      rw [show 2 * m + 2 - ((natHexDigits (n / 256)).length + (0 + 1 + 1)) =
        2 * m - (natHexDigits (n / 256)).length by omega]
      simp [List.append_assoc]

theorem hexPairs_append : ∀ (as bs : List Char) (xs : List Nat),
    hexPairsToBytes? as = some xs →
    hexPairsToBytes? (as ++ bs) = (hexPairsToBytes? bs).map (fun ys => xs ++ ys)
  | [], bs, xs, has => by
    simp only [hexPairsToBytes?, Option.some.injEq] at has
    subst has
    simp only [List.nil_append]
    cases hexPairsToBytes? bs <;> simp
  | [c], bs, xs, has => by
    simp [hexPairsToBytes?] at has
  | c1 :: c2 :: rest, bs, xs, has => by
    simp only [hexPairsToBytes?] at has
    cases hv1 : hexVal? c1 with
    | none => rw [hv1] at has; cases has
    | some v1 =>
      cases hv2 : hexVal? c2 with
      | none => rw [hv1, hv2] at has; cases has
      | some v2 =>
        cases hr : hexPairsToBytes? rest with
        | none => rw [hv1, hv2, hr] at has; cases has
        | some ys =>
          rw [hv1, hv2, hr] at has
          simp only [Option.some.injEq] at has
          subst has
          have hrec := hexPairs_append rest bs ys hr
          simp only [List.cons_append, hexPairsToBytes?, hv1, hv2, List.append_eq]
          rw [hrec]
          cases hexPairsToBytes? bs with
          | none => simp
          | some zs => simp

theorem hexPairs_padStart (k : Nat) : ∀ n, n < 256 ^ (k + 1) →
    hexPairsToBytes? (padStartList (2 * (k + 1)) '0' (natHexDigits n)) =
      some (natBeBytes (k + 1) n) := by
  induction k with
  | zero =>
    intro n hn
    have hn256 : n < 256 := by simpa using hn
    by_cases h1 : n < 16
    · rw [natHexDigits_lt h1]
      have hpad : padStartList (2 * (0 + 1)) '0' [Nat.digitChar n] = ['0', Nat.digitChar n] := by
        simp [padStartList, List.replicate]
      rw [hpad]
      simp only [hexPairsToBytes?, hexVal_digitChar h1,
        show hexVal? '0' = some 0 from by decide]
      simp only [natBeBytes, List.nil_append, Option.some.injEq, List.cons.injEq, and_true]
      omega
    · rw [natHexDigits_ge (by omega), natHexDigits_lt (show n / 16 < 16 by omega)]
      have hpad : padStartList (2 * (0 + 1)) '0'
          ([Nat.digitChar (n / 16)] ++ [Nat.digitChar (n % 16)]) =
          [Nat.digitChar (n / 16), Nat.digitChar (n % 16)] := by
        simp [padStartList]
      rw [hpad]
      simp only [hexPairsToBytes?, hexVal_digitChar (show n / 16 < 16 by omega),
        hexVal_digitChar (show n % 16 < 16 by omega)]
      simp only [natBeBytes, List.nil_append, Option.some.injEq, List.cons.injEq, and_true]
      omega
  | succ k ih =>
    intro n hn
    have hdiv : n / 256 < 256 ^ (k + 1) := by
      rw [Nat.div_lt_iff_lt_mul (by omega : 0 < 256)]
      calc n < 256 ^ (k + 1 + 1) := hn
        _ = 256 ^ (k + 1) * 256 := by ring
    have hmain := ih (n / 256) hdiv
    rw [show 2 * (k + 1 + 1) = 2 * (k + 1) + 2 by ring,
      padStart_natHexDigits_step (k + 1) (by omega) n,
      hexPairs_append _ _ _ hmain]
    simp only [hexPairsToBytes?, hexVal_digitChar (show n / 16 % 16 < 16 by omega),
      hexVal_digitChar (show n % 16 < 16 by omega), Option.map_some']
    simp only [natBeBytes, Option.some.injEq]
    have : 16 * (n / 16 % 16) + n % 16 = n % 256 := by omega
    rw [this]

theorem hexPairs_exists : ∀ (cs : List Char), (∀ c ∈ cs, (hexVal? c).isSome) →
    cs.length % 2 = 0 →
    ∃ bs, hexPairsToBytes? cs = some bs ∧ bs.length = cs.length / 2
  | [], _, _ => ⟨[], rfl, rfl⟩
  | [c], _, hlen => by simp at hlen
  | c1 :: c2 :: rest, hhex, hlen => by
    obtain ⟨v1, hv1⟩ := Option.isSome_iff_exists.mp (hhex c1 (by simp))
    obtain ⟨v2, hv2⟩ := Option.isSome_iff_exists.mp (hhex c2 (by simp))
    obtain ⟨bs, hbs, hbslen⟩ := hexPairs_exists rest
      (fun c hc => hhex c (by simp [hc]))
      (by simp only [List.length_cons] at hlen; omega)
    refine ⟨(16 * v1 + v2) :: bs, ?_, ?_⟩
    · simp [hexPairsToBytes?, hv1, hv2, hbs]
    · simp only [List.length_cons, hbslen]
      omega

theorem isHex64_elim {s : String} (h : isHex64 s = true) :
    ∃ rest, s = String.mk ('0' :: 'x' :: rest) ∧ rest.length = 64 ∧
      ∀ c ∈ rest, (hexVal? c).isSome := by
  cases s with
  | mk data =>
    cases data with
    | nil => simp [isHex64] at h
    | cons c0 tail =>
      cases tail with
      | nil => simp [isHex64] at h
      | cons c1 rest =>
        simp only [isHex64, Bool.and_eq_true, beq_iff_eq, List.all_eq_true] at h
        obtain ⟨⟨⟨hc0, hc1⟩, hlen⟩, hhex⟩ := h
        subst hc0
        subst hc1
        exact ⟨rest, rfl, hlen, fun c hc => hhex c hc⟩

/-- C1: Write-once per key — after a successful `register(h, c1)`, in
every state reachable by any further sequence of registry calls,
another `register(h, c2)` from any caller and with any commitment fails
with `AlreadyRegistered`, and the record stored for `h` still holds the
original commitment, owner and timestamp. -/
theorem claim_write_once (keccak : List Nat → List Nat)
    (st1 : RegistryState) (caller1 t1 h c1 ret : Nat) (st2 : RegistryState)
    (hok : register st1 caller1 t1 h c1 = .ok (ret, st2))
    (st3 : RegistryState) (hreach : ReachableFrom keccak st2 st3)
    (caller2 t2 c2 : Nat) :
    register st3 caller2 t2 h c2 = .error .AlreadyRegistered ∧
    lookupRecord st3 h = some { verifiedAt := t1, owner := caller1, commitment := c1 } ∧
    getAttestation st3 h = (t1, caller1, c1) := by
  unfold register at hok
  cases habs : lookupRecord st1 h with
  | some _ => rw [habs] at hok; cases hok
  | none =>
    rw [habs] at hok
    simp only [Except.ok.injEq, Prod.mk.injEq] at hok
    obtain ⟨hret, hst2⟩ := hok
    have hl2 : lookupRecord st2 h =
        some { verifiedAt := t1, owner := caller1, commitment := c1 } := by
      rw [← hst2, lookupRecord_register_cons habs]
      simp
    have hl3 := reachableFrom_preserves_lookup hreach hl2
    refine ⟨?_, hl3, ?_⟩
    · unfold register
      rw [hl3]
    · simp [getAttestation, hl3]

/-- Witness for C1 at a concrete registration followed by the empty
call sequence. -/
theorem claim_write_once_witness :
    register { records := [(7, { verifiedAt := 5, owner := 1, commitment := 9 })],
               ownerCounts := [(1, 1)], totalPhotoCount := 1 } 2 6 7 3 =
      .error .AlreadyRegistered ∧
    lookupRecord { records := [(7, { verifiedAt := 5, owner := 1, commitment := 9 })],
                   ownerCounts := [(1, 1)], totalPhotoCount := 1 } 7 =
      some { verifiedAt := 5, owner := 1, commitment := 9 } ∧
    getAttestation { records := [(7, { verifiedAt := 5, owner := 1, commitment := 9 })],
                     ownerCounts := [(1, 1)], totalPhotoCount := 1 } 7 = (5, 1, 9) :=
  claim_write_once testKeccak emptyRegistry 1 5 7 9 5
    { records := [(7, { verifiedAt := 5, owner := 1, commitment := 9 })],
      ownerCounts := [(1, 1)], totalPhotoCount := 1 }
    (by rfl) _ (ReachableFrom.refl _) 2 6 3

/-- C2: Commitment soundness — `verifyProof(h, s)` returns `true` iff a
record exists for `h` whose stored commitment equals the digest of the
64-byte concatenation of `h` and `s`; it returns `false`, not a
failure, for an absent record; and the hashed concatenation is indeed
64 bytes long. -/
theorem claim_commitment_soundness (keccak : List Nat → List Nat) (st : RegistryState)
    (h s : Nat) :
    (verifyProof keccak st h s = true ↔
      ∃ r, lookupRecord st h = some r ∧ commitmentHash keccak h s = r.commitment) ∧
    (lookupRecord st h = none → verifyProof keccak st h s = false) ∧
    (natBeBytes 32 h ++ natBeBytes 32 s).length = 64 := by
  refine ⟨?_, ?_, ?_⟩
  · unfold verifyProof
    cases habs : lookupRecord st h with
    | none => simp
    | some r => simp
  · intro habs
    unfold verifyProof
    rw [habs]
  · simp [natBeBytes_length]

/-- Witness for C2 on the empty registry. -/
theorem claim_commitment_soundness_witness :
    verifyProof testKeccak emptyRegistry 1 2 = false :=
  (claim_commitment_soundness testKeccak emptyRegistry 1 2).2.1 (by rfl)

/-- C3: `register` fails with `AlreadyRegistered` exactly when a record
already exists for the photo hash, and a failing `register` call leaves
the whole registry state unchanged (all-or-nothing). -/
theorem claim_register_error_atomic (keccak : List Nat → List Nat)
    (st : RegistryState) (caller time h c : Nat) :
    (register st caller time h c = .error .AlreadyRegistered ↔
      ∃ r, lookupRecord st h = some r) ∧
    (register st caller time h c = .error .AlreadyRegistered →
      execState keccak st (.register caller time h c) = st) := by
  constructor
  · constructor
    · intro herr
      unfold register at herr
      cases habs : lookupRecord st h with
      | none => rw [habs] at herr; cases herr
      | some r => exact ⟨r, rfl⟩
    · rintro ⟨r, hr⟩
      unfold register
      rw [hr]
  · intro herr
    simp [execState, exec, herr]

/-- Witness for C3 at a concrete duplicate registration. -/
theorem claim_register_error_atomic_witness :
    execState testKeccak
      { records := [(7, { verifiedAt := 5, owner := 1, commitment := 9 })],
        ownerCounts := [(1, 1)], totalPhotoCount := 1 } (.register 2 6 7 3) =
    { records := [(7, { verifiedAt := 5, owner := 1, commitment := 9 })],
      ownerCounts := [(1, 1)], totalPhotoCount := 1 } :=
  (claim_register_error_atomic testKeccak
    { records := [(7, { verifiedAt := 5, owner := 1, commitment := 9 })],
      ownerCounts := [(1, 1)], totalPhotoCount := 1 } 2 6 7 3).2 (by rfl)

/-- C4: Counter consistency — in every reachable registry state,
`getPhotoCount()` is the number of populated keys, a hash is verified
exactly when its key is populated, and `getOwnerPhotoCount(o)` counts
the records owned by `o`. -/
theorem claim_counter_consistency (keccak : List Nat → List Nat) (st : RegistryState)
    (hst : Reachable keccak st) :
    getPhotoCount st = (st.records.map Prod.fst).toFinset.card ∧
    (∀ h, isVerified st h = true ↔ h ∈ st.records.map Prod.fst) ∧
    (∀ o, getOwnerPhotoCount st o =
      List.countP (fun p => p.2.owner == o) st.records) := by
  obtain ⟨hnodup, hpos, htot, hcnt⟩ := reachable_inv hst
  refine ⟨?_, ?_, ?_⟩
  · rw [getPhotoCount, htot, List.toFinset_card_of_nodup hnodup, List.length_map]
  · intro h
    constructor
    · intro hver
      by_contra hmem
      have hnone : List.find? (fun q => q.1 == h) st.records = none := by
        rw [List.find?_eq_none]
        intro q hq hbeq
        exact hmem (List.mem_map.mpr ⟨q, hq, by simpa using hbeq⟩)
      simp [isVerified, getAttestation, lookupRecord, hnone] at hver
    · intro hmem
      obtain ⟨p, hp, hp1⟩ := List.mem_map.mp hmem
      have hsome : (List.find? (fun q => q.1 == h) st.records).isSome := by
        rw [List.find?_isSome]
        exact ⟨p, hp, by simp [hp1]⟩
      obtain ⟨q, hq⟩ := Option.isSome_iff_exists.mp hsome
      have hqpos := hpos q (List.mem_of_find?_eq_some hq)
      simp only [isVerified, getAttestation, lookupRecord, hq, Option.map_some']
      simpa using Nat.pos_iff_ne_zero.mp hqpos
  · intro o
    rw [getOwnerPhotoCount, hcnt]

/-- Witness for C4 in the state reached by one registration. -/
theorem claim_counter_consistency_witness :
    getPhotoCount (execState testKeccak emptyRegistry (.register 1 5 7 9)) =
      ((execState testKeccak emptyRegistry (.register 1 5 7 9)).records.map
        Prod.fst).toFinset.card :=
  (claim_counter_consistency testKeccak _
    (ReachableFrom.step (RegistryOp.register 1 5 7 9) (ReachableFrom.refl _)
      (show (0 : Nat) < 5 by decide))).1

/-- C6: A successful `register` creates the record with the caller as
owner, the ledger time as `verifiedAt` and the given commitment,
increments both counters, and returns the assigned `verifiedAt`, which
is nonzero since the ledger clock is positive. -/
theorem claim_register_effect (st : RegistryState) (caller time h c : Nat)
    (habs : lookupRecord st h = none) (htime : 0 < time) :
    ∃ st', register st caller time h c = .ok (time, st') ∧
      lookupRecord st' h = some { verifiedAt := time, owner := caller, commitment := c } ∧
      getAttestation st' h = (time, caller, c) ∧
      getPhotoCount st' = getPhotoCount st + 1 ∧
      getOwnerPhotoCount st' caller = getOwnerPhotoCount st caller + 1 ∧
      time ≠ 0 := by
  refine ⟨RegistryState.mk ((h, AttestationRecord.mk time caller c) :: st.records)
      (bumpOwner st.ownerCounts caller) (st.totalPhotoCount + 1), ?_, ?_, ?_, ?_, ?_,
      Nat.pos_iff_ne_zero.mp htime⟩
  · unfold register
    rw [habs]
  · rw [lookupRecord_register_cons habs]
    simp
  · unfold getAttestation
    rw [lookupRecord_register_cons habs]
    simp
  · simp [getPhotoCount]
  · simp [getOwnerPhotoCount, lookupCount_bumpOwner_self]

/-- Witness for C6 at a concrete first registration. -/
theorem claim_register_effect_witness :
    ∃ st', register emptyRegistry 1 5 7 9 = .ok (5, st') ∧
      lookupRecord st' 7 = some { verifiedAt := 5, owner := 1, commitment := 9 } ∧
      getAttestation st' 7 = (5, 1, 9) ∧
      getPhotoCount st' = getPhotoCount emptyRegistry + 1 ∧
      getOwnerPhotoCount st' 1 = getOwnerPhotoCount emptyRegistry 1 + 1 ∧
      (5 : Nat) ≠ 0 :=
  claim_register_effect emptyRegistry 1 5 7 9 (by rfl) (by decide)

/-- C7: Absent-key reads — on a photo hash with no record,
`getAttestation` returns the zero-valued tuple and never fails,
`isVerified` is `false` and `getOwnerOf` is the zero identity. -/
theorem claim_absent_reads (st : RegistryState) (h : Nat)
    (habs : lookupRecord st h = none) :
    getAttestation st h = (0, 0, 0) ∧ isVerified st h = false ∧ getOwnerOf st h = 0 := by
  refine ⟨?_, ?_, ?_⟩ <;> simp [getAttestation, isVerified, getOwnerOf, habs]

/-- Witness for C7 at the unregistered all-ones hash. -/
theorem claim_absent_reads_witness :
    getAttestation emptyRegistry (2 ^ 256 - 1) = (0, 0, 0) ∧
    isVerified emptyRegistry (2 ^ 256 - 1) = false ∧
    getOwnerOf emptyRegistry (2 ^ 256 - 1) = 0 :=
  claim_absent_reads emptyRegistry (2 ^ 256 - 1) (by rfl)

/-- C8: Proof checks are pure and idempotent — a `verifyProof` call
leaves the registry state (hence `getAttestation` and the counters)
unchanged, and an immediately repeated call with the same inputs
returns the same output. -/
theorem claim_verifyProof_pure (keccak : List Nat → List Nat) (st : RegistryState)
    (h s : Nat) :
    execState keccak st (.verifyProof h s) = st ∧
    (exec keccak st (.verifyProof h s)).2 = .boolOut (verifyProof keccak st h s) ∧
    getAttestation (execState keccak st (.verifyProof h s)) h = getAttestation st h ∧
    getPhotoCount (execState keccak st (.verifyProof h s)) = getPhotoCount st ∧
    (exec keccak (execState keccak st (.verifyProof h s)) (.verifyProof h s)).2 =
      (exec keccak st (.verifyProof h s)).2 :=
  ⟨rfl, rfl, rfl, rfl, rfl⟩

theorem computeCommitment_concrete :
    computeCommitment constKeccak zeroHash64 0 = some abCommit := by
  have h0 : natHexDigits 0 = ['0'] := natHexDigits_lt (by omega)
  have htoHex : toHexViem32 0 =
      some (String.mk ('0' :: 'x' :: (List.replicate 63 '0' ++ ['0']))) := by
    unfold toHexViem32
    rw [h0, if_pos (by norm_num)]
    rfl
  unfold computeCommitment
  rw [htoHex]
  decide

/-- C5: Commitment generation round trip — on a `0x`-prefixed
64-hex-digit photo hash and a 256-bit secret, `generateZKProof` returns
the commitment obtained by hashing the concatenation of the photo
hash's 32 bytes followed by the secret's 32-byte big-endian encoding
(concatenate-then-hash), along with the padded hex rendering of the
secret, and `verifyZKProofLocally` accepts that output. -/
theorem claim_generate_roundtrip (keccak : List Nat → List Nat) (photoHash : String)
    (secret : Nat) (hph : isHex64 photoHash = true) (hs : secret < 2 ^ 256) :
    ∃ phBytes commitment secretHex,
      hexToBytes? photoHash = some phBytes ∧ phBytes.length = 32 ∧
      generateZKProof keccak photoHash secret = some (commitment, secretHex) ∧
      commitment =
        String.mk ('0' :: 'x' :: bytesToHexChars (keccak (phBytes ++ natBeBytes 32 secret))) ∧
      secretHex = String.mk ('0' :: 'x' :: padStartList 64 '0' (natHexDigits secret)) ∧
      verifyZKProofLocally keccak photoHash commitment secret = some true := by
  obtain ⟨rest, hdata, hlen, hhex⟩ := isHex64_elim hph
  subst hdata
  obtain ⟨phBytes, hpb, hpblen⟩ := hexPairs_exists rest hhex (by omega)
  have hsecret : hexPairsToBytes? (padStartList 64 '0' (natHexDigits secret)) =
      some (natBeBytes 32 secret) := by
    have h2pow : (256 : Nat) ^ 32 = 2 ^ 256 := by norm_num
    have h256 : secret < 256 ^ (31 + 1) := by
      rw [show (31 : Nat) + 1 = 32 from rfl, h2pow]
      exact hs
    have hkey := hexPairs_padStart 31 secret h256
    simpa using hkey
  have htoHex : toHexViem32 secret =
      some (String.mk ('0' :: 'x' :: padStartList 64 '0' (natHexDigits secret))) := by
    unfold toHexViem32
    rw [if_pos hs]
  have hconcat : viemConcat (String.mk ('0' :: 'x' :: rest))
      (String.mk ('0' :: 'x' :: padStartList 64 '0' (natHexDigits secret))) =
      String.mk ('0' :: 'x' :: (rest ++ padStartList 64 '0' (natHexDigits secret))) := by
    simp [viemConcat, dropHexTag]
  have hbytes : hexToBytes? (String.mk ('0' :: 'x' ::
      (rest ++ padStartList 64 '0' (natHexDigits secret)))) =
      some (phBytes ++ natBeBytes 32 secret) := by
    simp only [hexToBytes?]
    rw [hexPairs_append rest _ phBytes hpb, hsecret]
    rfl
  have hcc : computeCommitment keccak (String.mk ('0' :: 'x' :: rest)) secret =
      some (String.mk ('0' :: 'x' ::
        bytesToHexChars (keccak (phBytes ++ natBeBytes 32 secret)))) := by
    unfold computeCommitment
    rw [htoHex]
    show keccak256HexStr keccak (viemConcat (String.mk ('0' :: 'x' :: rest))
        (String.mk ('0' :: 'x' :: padStartList 64 '0' (natHexDigits secret)))) =
      some (String.mk ('0' :: 'x' ::
        bytesToHexChars (keccak (phBytes ++ natBeBytes 32 secret))))
    rw [hconcat]
    unfold keccak256HexStr
    rw [hbytes]
    rfl
  refine ⟨phBytes,
    String.mk ('0' :: 'x' :: bytesToHexChars (keccak (phBytes ++ natBeBytes 32 secret))),
    String.mk ('0' :: 'x' :: padStartList 64 '0' (natHexDigits secret)),
    ?_, ?_, ?_, rfl, rfl, ?_⟩
  · simp [hexToBytes?, hpb]
  · omega
  · unfold generateZKProof
    rw [hcc]
    rfl
  · unfold verifyZKProofLocally
    rw [hcc]
    simp

/-- Witness for C5 on the all-zero hash and the zero secret under the
constant stand-in digest. -/
theorem claim_generate_roundtrip_witness :
    ∃ phBytes commitment secretHex,
      hexToBytes? zeroHash64 = some phBytes ∧ phBytes.length = 32 ∧
      generateZKProof constKeccak zeroHash64 0 = some (commitment, secretHex) ∧
      commitment = String.mk ('0' :: 'x' ::
        bytesToHexChars (constKeccak (phBytes ++ natBeBytes 32 0))) ∧
      secretHex = String.mk ('0' :: 'x' :: padStartList 64 '0' (natHexDigits 0)) ∧
      verifyZKProofLocally constKeccak zeroHash64 commitment 0 = some true :=
  claim_generate_roundtrip constKeccak zeroHash64 0 (by decide) (by decide)

/-- C9: The local check is case-insensitive — `verifyZKProofLocally`
accepts a commitment exactly when it equals the recomputed commitment
after lower-casing both sides, any casing variant of the correct
commitment behaves like the correct one, and the check is strictly
more permissive than byte-for-byte string comparison. -/
theorem claim_local_check_casefold (keccak : List Nat → List Nat)
    (photoHash commitment : String) (secret : Nat) (comp : String)
    (hcomp : computeCommitment keccak photoHash secret = some comp) :
    (verifyZKProofLocally keccak photoHash commitment secret = some true ↔
      jsToLower comp = jsToLower commitment) ∧
    (∀ other : String, jsToLower other = jsToLower commitment →
      verifyZKProofLocally keccak photoHash other secret =
        verifyZKProofLocally keccak photoHash commitment secret) ∧
    (∃ (kec : List Nat → List Nat) (ph c : String) (s : Nat),
      verifyZKProofLocally kec ph c s = some true ∧
      computeCommitment kec ph s ≠ some c) := by
  refine ⟨?_, ?_, ?_⟩
  · unfold verifyZKProofLocally
    rw [hcomp]
    simp
  · intro other hother
    unfold verifyZKProofLocally
    rw [hcomp, hother]
  · refine ⟨constKeccak, zeroHash64, abCommitUpper, 0, ?_, ?_⟩
    · unfold verifyZKProofLocally
      rw [computeCommitment_concrete]
      decide
    · rw [computeCommitment_concrete]
      decide

/-- Witness for C9: the upper-case rendering of the correct commitment
is accepted by the local check. -/
theorem claim_local_check_casefold_witness :
    verifyZKProofLocally constKeccak zeroHash64 abCommitUpper 0 = some true :=
  (claim_local_check_casefold constKeccak zeroHash64 abCommitUpper 0 abCommit
    computeCommitment_concrete).1.mpr (by decide)

/-- C10: Secret store/retrieve round trip — after
`storeSecretSecurely(h, s)`, `retrieveSecret(h)` returns exactly `s`;
on a storage where `h` was never stored it returns `null`; after
`deleteSecret(h)` it returns `null`; and operations on a distinct photo
hash never interfere, because each secret lives under the key
`'zk_secret_' + photoHash`. -/
theorem claim_secret_roundtrip (st : BrowserStorage) (h h' s : String) :
    retrieveSecret (storeSecretSecurely st h s) h = some s ∧
    retrieveSecret ([] : BrowserStorage) h = none ∧
    retrieveSecret (deleteSecret st h) h = none ∧
    (h ≠ h' →
      retrieveSecret (storeSecretSecurely st h' s) h = retrieveSecret st h ∧
      retrieveSecret (deleteSecret st h') h = retrieveSecret st h) := by
  have hkey : ∀ a b : String, a ≠ b → ("zk_secret_" ++ a : String) ≠ "zk_secret_" ++ b := by
    intro a b hab hcontra
    exact hab (string_append_left_cancel hcontra)
  refine ⟨?_, rfl, ?_, ?_⟩
  · exact lsGet_lsSet_self st _ s
  · exact lsGet_lsRemove_self st _
  · intro hne
    constructor
    · exact lsGet_lsSet_ne st s (hkey h h' hne)
    · exact lsGet_filter_ne st (hkey h h' hne)

/-- Witness for C10 at two concrete distinct photo hashes. -/
theorem claim_secret_roundtrip_witness :
    retrieveSecret (storeSecretSecurely ([] : BrowserStorage) "bb" "s1") "aa" =
      retrieveSecret ([] : BrowserStorage) "aa" ∧
    retrieveSecret (deleteSecret ([] : BrowserStorage) "bb") "aa" =
      retrieveSecret ([] : BrowserStorage) "aa" :=
  (claim_secret_roundtrip ([] : BrowserStorage) "aa" "bb" "s1").2.2.2 (by decide)

end ArbiPic
